import Mathlib

/-!
Verification of the `qiling/os/utils.py` core: the call ledger and string index,
the guest string / printf-style format utilities, and the Windows driver I/O
request emulation (`io_Write` and `ioctl`).

The Python code is shallowly embedded: guest memory is a byte function
`Nat → Nat` (or, for the string readers, the byte list starting at the read
address), the guest heap is a bump allocator recording every allocation and
every free, and the CPU emulator together with the fault classifier
(`ql.run` / `verify_ret`) is an abstract function `Nat → Mem → Option Mem`
(`some` = the dispatch ran to completion or its fault was classified benign,
`none` = a fatal fault that propagates as an exception).

The bit-exact kernel structure layouts (IRP, IO_STACK_LOCATION, MDL,
DEVICE_OBJECT, found in `qiling/os/windows/structs.py`, outside the sources
verified here) are abstracted as a `Layout` parameter: sizes plus
encoders/decoders, with the single ctypes fact that an encoded structure has
exactly its declared size.
-/

namespace QilingUtils

/-- Split a character list at every occurrence of `sep`, keeping empty pieces.
This models CPython's `str.split(sep)` with an explicit one-character
separator: the result is always non-empty and empty fields are preserved. -/
def splitOnChar (sep : Char) : List Char → List (List Char)
  | [] => [[]]
  | c :: cs =>
    if c = sep then [] :: splitOnChar sep cs
    else
      match splitOnChar sep cs with
      | [] => [[c]]
      | t :: ts => (c :: t) :: ts

/-- `bytes.decode("utf-8", errors="ignore")` as used by `read_string`, which
only ever decodes chunks of one or two bytes (the terminator width).  ASCII
bytes decode to themselves, a valid two-byte sequence decodes to its code
point, and invalid bytes are dropped.  (Three- and four-byte UTF-8 sequences
can never complete inside the one- or two-byte chunks read here, so their
start bytes are always dropped, as CPython does.) -/
def decodeUtf8Ignore : List Nat → List Char
  | [] => []
  | [b] => if b < 0x80 then [Char.ofNat b] else []
  | b :: b1 :: rest =>
    if b < 0x80 then Char.ofNat b :: decodeUtf8Ignore (b1 :: rest)
    else if (0xC2 ≤ b ∧ b ≤ 0xDF) ∧ (0x80 ≤ b1 ∧ b1 ≤ 0xBF) then
      Char.ofNat ((b - 0xC0) * 64 + (b1 - 0x80)) :: decodeUtf8Ignore rest
    else decodeUtf8Ignore (b1 :: rest)

/-- UTF-8 encoding of one character (`str.encode("utf-8")`). -/
def encodeUtf8Char (c : Char) : List Nat :=
  let n := c.toNat
  if n < 0x80 then [n]
  else if n < 0x800 then [0xC0 + n / 64, 0x80 + n % 64]
  else if n < 0x10000 then [0xE0 + n / 4096, 0x80 + n / 64 % 64, 0x80 + n % 64]
  else [0xF0 + n / 262144, 0x80 + n / 4096 % 64, 0x80 + n / 64 % 64, 0x80 + n % 64]

/-- UTF-8 encoding of a string (`str.encode("utf-8")`). -/
def encodeUtf8 (s : List Char) : List Nat :=
  (s.map encodeUtf8Char).flatten

/-- UTF-16LE encoding of one character (`str.encode("utf-16le")`): two
little-endian bytes for BMP characters, a surrogate pair beyond. -/
def encodeUtf16leChar (c : Char) : List Nat :=
  let n := c.toNat
  if n < 0x10000 then [n % 256, n / 256]
  else
    let v := n - 0x10000
    let hi := 0xD800 + v / 0x400
    let lo := 0xDC00 + v % 0x400
    [hi % 256, hi / 256, lo % 256, lo / 256]

/-- UTF-16LE encoding of a string; this is also the "wide encoding" in which
guest wide strings are stored. -/
def encodeUtf16le (s : List Char) : List Nat :=
  (s.map encodeUtf16leChar).flatten

/-! ## Call Ledger and String Index (`QlOsUtils.__init__`, `clear_syscalls`,
`_call_api`, `string_appearance`) -/

/-- One recorded API invocation (`_call_api`'s dict entry). -/
structure CallRecord where
  params : List (String × Int)
  retval : Int
  address : Nat
  retaddr : Nat
  position : Nat
  deriving DecidableEq

/-- The mutable ledger state: `self.syscalls` (an insertion-ordered dict from
API name to its records), `self.syscalls_counter`, and
`self.appeared_strings` (token → set of sequence numbers, the set kept as a
duplicate-free list). -/
structure LedgerState where
  syscalls : List (String × List CallRecord)
  syscalls_counter : Nat
  appeared_strings : List (String × List Nat)
  deriving DecidableEq

/-- `clear_syscalls`: reset ledger, counter and string index. -/
def clear_syscalls (_st : LedgerState) : LedgerState :=
  ⟨[], 0, []⟩

/-- Arguments of one `_call_api` invocation. -/
structure CallInput where
  address : Nat
  name : String
  params : List (String × Int)
  retval : Int
  retaddr : Nat
  deriving DecidableEq

/-- Strip the `hook_` naming pre-part from an API name (`_call_api`). -/
def stripHook (name : String) : String :=
  if name.startsWith "hook_" then name.drop 5 else name

/-- `dict.setdefault(k, []).append(v)` on an insertion-ordered dict. -/
def dictAppend (k : String) (v : CallRecord) :
    List (String × List CallRecord) → List (String × List CallRecord)
  | [] => [(k, [v])]
  | (k', vs) :: rest =>
    if k' = k then (k', vs ++ [v]) :: rest else (k', vs) :: dictAppend k v rest

/-- `_call_api`: record one API call at the current sequence number, then
increment the counter. -/
def callApi (st : LedgerState) (c : CallInput) : LedgerState :=
  { st with
    syscalls := dictAppend (stripHook c.name)
      ⟨c.params, c.retval, c.address, c.retaddr, st.syscalls_counter⟩ st.syscalls
    syscalls_counter := st.syscalls_counter + 1 }

/-- Fold a sequence of `_call_api` invocations over a ledger state. -/
def applyCalls (st : LedgerState) (cs : List CallInput) : LedgerState :=
  cs.foldl callApi st

/-- `set.add`: add an element to a Python set (modelled as a duplicate-free
list). -/
def setAdd (x : Nat) (s : List Nat) : List Nat :=
  if x ∈ s then s else s ++ [x]

/-- `appeared_strings.setdefault(token, set()).add(pos)`. -/
def addTokenPos (tok : String) (pos : Nat) :
    List (String × List Nat) → List (String × List Nat)
  | [] => [(tok, [pos])]
  | (t, ps) :: rest =>
    if t = tok then (t, setAdd pos ps) :: rest else (t, ps) :: addTokenPos tok pos rest

/-- `str.split(' ')` (single-space separator, empties kept). -/
def pySplitSpace (s : String) : List String :=
  (splitOnChar ' ' s.toList).map fun l => ⟨l⟩

/-- `string_appearance`: record the current sequence number against every
space-delimited token of `s`. -/
def stringAppearance (s : String) (st : LedgerState) : LedgerState :=
  { st with
    appeared_strings :=
      (pySplitSpace s).foldl (fun ap tok => addTokenPos tok st.syscalls_counter ap)
        st.appeared_strings }

/-- The set of sequence numbers recorded for a token in the string index. -/
def lookupPositions (tok : String) (l : List (String × List Nat)) : List Nat :=
  ((l.find? fun kv => kv.1 = tok).map Prod.snd).getD []

/-- All sequence numbers recorded in the ledger (across all API names). -/
def posList (st : LedgerState) : List Nat :=
  (st.syscalls.map fun kv => kv.2.map fun r => r.position).flatten

theorem posList_dictAppend (k : String) (v : CallRecord)
    (l : List (String × List CallRecord)) :
    List.Perm ((dictAppend k v l).map fun kv => kv.2.map fun r => r.position).flatten
      (v.position :: (l.map fun kv => kv.2.map fun r => r.position).flatten) := by
  induction l with
  | nil => simp [dictAppend]
  | cons hd tl ih =>
    obtain ⟨k', vs⟩ := hd
    by_cases hk : k' = k
    · simp only [dictAppend, if_pos hk, List.map_cons, List.flatten_cons, List.map_append]
      simp [List.append_assoc]
    · simp only [dictAppend, if_neg hk, List.map_cons, List.flatten_cons]
      exact (List.Perm.append_left _ ih).trans List.perm_middle

theorem posList_callApi (st : LedgerState) (c : CallInput) :
    List.Perm (posList (callApi st c)) (st.syscalls_counter :: posList st) :=
  posList_dictAppend _ _ _

theorem counter_callApi (st : LedgerState) (c : CallInput) :
    (callApi st c).syscalls_counter = st.syscalls_counter + 1 := rfl

theorem posList_applyCalls (st : LedgerState) (cs : List CallInput) :
    List.Perm (posList (applyCalls st cs))
      (List.range' st.syscalls_counter cs.length ++ posList st) ∧
    (applyCalls st cs).syscalls_counter = st.syscalls_counter + cs.length := by
  induction cs generalizing st with
  | nil => simp [applyCalls]
  | cons c cs ih =>
    obtain ⟨ihp, ihc⟩ := ih (callApi st c)
    refine ⟨?_, ?_⟩
    · have h1 : posList (applyCalls st (c :: cs)) = posList (applyCalls (callApi st c) cs) := rfl
      have h2 := List.Perm.append_left (List.range' (st.syscalls_counter + 1) cs.length)
        (posList_callApi st c)
      have h3 :
          List.Perm
            (List.range' (st.syscalls_counter + 1) cs.length ++
              (st.syscalls_counter :: posList st))
            (st.syscalls_counter ::
              (List.range' (st.syscalls_counter + 1) cs.length ++ posList st)) :=
        List.perm_middle
      rw [h1, List.length_cons, List.range'_succ, List.cons_append]
      exact (ihp.trans h2).trans h3
    · show (applyCalls (callApi st c) cs).syscalls_counter = st.syscalls_counter + (c :: cs).length
      rw [ihc, counter_callApi st c, List.length_cons]
      omega

/-! ## Guest string readers (`read_string`, `read_cstring`, `read_wstring`) -/

/-- `QlOsUtils.read_string`: starting at the read address (the byte list
`mem`), read terminator-width chunks until one decodes to the terminator
text, returning the concatenation of the decoded chunks read before it.
`none` models the `ql.mem.read` failure raised when the buffer runs out
before a terminator chunk is found.  (`charlen = 0` makes the Python loop
compare empty chunks and stop at once; the callers only pass one- and
two-byte terminators.) -/
def readStringLoop (charlen : Nat) (term : List Char) (mem : List Nat) : Option (List Char) :=
  if charlen = 0 then some []
  else if mem.length < charlen then none
  else if decodeUtf8Ignore (mem.take charlen) = term then some []
  else
    match readStringLoop charlen term (mem.drop charlen) with
    | none => none
    | some s => some (decodeUtf8Ignore (mem.take charlen) ++ s)
termination_by mem.length
decreasing_by
  simp only [List.length_drop]
  omega

/-- `read_cstring`: read a narrow (single-zero-terminated) guest string and
record its tokens in the string index. -/
def readCString (mem : List Nat) (st : LedgerState) : Option (String × LedgerState) :=
  (readStringLoop 1 [Char.ofNat 0] mem).map fun cs =>
    (⟨cs⟩, stringAppearance ⟨cs⟩ st)

/-- `read_wstring`: read a wide (double-zero-terminated) guest string, remove
the embedded zero characters left over by the chunk-wise decoding (the
`s.replace` of the source), and record the tokens of the result. -/
def readWString (mem : List Nat) (st : LedgerState) : Option (String × LedgerState) :=
  (readStringLoop 2 [Char.ofNat 0, Char.ofNat 0] mem).map fun cs =>
    let s : String := ⟨cs.filter fun c => c ≠ Char.ofNat 0⟩
    (s, stringAppearance s st)

theorem readStringLoop_wide_ascii (text : List Char)
    (h : ∀ c ∈ text, 0 < c.toNat ∧ c.toNat < 128) :
    readStringLoop 2 [Char.ofNat 0, Char.ofNat 0] (encodeUtf16le text ++ [0, 0]) =
      some ((text.map fun c => [c, Char.ofNat 0]).flatten) := by
  induction text with
  | nil =>
    rw [readStringLoop]
    simp [encodeUtf16le, decodeUtf8Ignore]
  | cons c rest ih =>
    obtain ⟨hc0, hc128⟩ := h c (List.mem_cons_self c rest)
    have hcne : c ≠ Char.ofNat 0 := by
      intro heq
      rw [heq] at hc0
      exact absurd hc0 (by decide)
    have henc : encodeUtf16leChar c = [c.toNat, 0] := by
      have h1 : c.toNat % 256 = c.toNat := Nat.mod_eq_of_lt (by omega)
      have h2 : c.toNat / 256 = 0 := Nat.div_eq_of_lt (by omega)
      have hlt : c.toNat < 65536 := by omega
      simp [encodeUtf16leChar, hlt, h1, h2]
    have hmem : encodeUtf16le (c :: rest) ++ [0, 0] =
        c.toNat :: 0 :: (encodeUtf16le rest ++ [0, 0]) := by
      simp [encodeUtf16le, henc]
    have hdec : decodeUtf8Ignore [c.toNat, 0] = [c, Char.ofNat 0] := by
      rw [decodeUtf8Ignore]
      simp [hc128, decodeUtf8Ignore, Char.ofNat_toNat]
    have hne : decodeUtf8Ignore [c.toNat, 0] ≠ [Char.ofNat 0, Char.ofNat 0] := by
      rw [hdec]
      simp [hcne]
    rw [hmem, readStringLoop]
    have hrest := ih fun x hx => h x (List.mem_cons_of_mem c hx)
    simp only [List.take, List.drop] at *
    simp [hne, hrest, hdec, hcne]

theorem filter_interleaved_zero (text : List Char)
    (h : ∀ c ∈ text, 0 < c.toNat ∧ c.toNat < 128) :
    ((text.map fun c => [c, Char.ofNat 0]).flatten.filter fun c => c ≠ Char.ofNat 0) =
      text := by
  induction text with
  | nil => rfl
  | cons c rest ih =>
    have hc0 := (h c (List.mem_cons_self c rest)).1
    have hcne : c ≠ Char.ofNat 0 := by
      intro heq
      subst heq
      simp [Char.ofNat] at hc0
    have ihr := ih fun x hx => h x (List.mem_cons_of_mem c hx)
    simp only [List.map_cons, List.flatten_cons, List.filter_append, ihr]
    simp [List.filter_cons, hcne]

theorem mem_setAdd (p : Nat) (s : List Nat) : p ∈ setAdd p s := by
  by_cases h : p ∈ s <;> simp [setAdd, h]

theorem mem_lookupPositions_addTokenPos (tok : String) (p : Nat)
    (l : List (String × List Nat)) :
    p ∈ lookupPositions tok (addTokenPos tok p l) := by
  induction l with
  | nil => simp [addTokenPos, lookupPositions, List.find?]
  | cons hd tl ih =>
    obtain ⟨t, ps⟩ := hd
    by_cases ht : t = tok
    · subst ht
      simp [addTokenPos, lookupPositions, List.find?, mem_setAdd]
    · simpa [addTokenPos, ht, lookupPositions, List.find?] using ih

/-! ## Claims C6, C7, C8 -/

/-- **C6**: sequence numbers strictly increase by one per recorded call
(`_call_api` stamps the current counter and increments it), after a reset the
`n` recorded calls carry exactly the sequence numbers `0..n-1` (so none is
ever reused within a ledger lifetime), and `clear_syscalls` empties the
ledger and the string index and restores the counter to `0`. -/
theorem claim_ledger_sequence_numbers :
    (∀ st, clear_syscalls st = ⟨[], 0, []⟩) ∧
    (∀ st c, (callApi st c).syscalls_counter = st.syscalls_counter + 1 ∧
      List.Perm (posList (callApi st c)) (st.syscalls_counter :: posList st)) ∧
    (∀ st cs, (applyCalls (clear_syscalls st) cs).syscalls_counter = cs.length ∧
      List.Perm (posList (applyCalls (clear_syscalls st) cs)) (List.range cs.length)) := by
  refine ⟨fun _ => rfl, fun st c => ⟨rfl, posList_callApi st c⟩, fun st cs => ?_⟩
  obtain ⟨hp, hc⟩ := posList_applyCalls (clear_syscalls st) cs
  refine ⟨by simpa [clear_syscalls] using hc, ?_⟩
  rw [List.range_eq_range']
  simpa [clear_syscalls, posList] using hp

/-- **C8**: `read_cstring` on the guest bytes `68 65 6c 6c 6f 00`
(`"hello"` plus the single-zero terminator) returns `"hello"`, and the
string index afterwards records the current sequence counter in the position
set of the token `"hello"`. -/
theorem claim_readCString_hello (st : LedgerState) :
    readCString [104, 101, 108, 108, 111, 0] st =
      some ("hello", stringAppearance "hello" st) ∧
    st.syscalls_counter ∈
      lookupPositions "hello" (stringAppearance "hello" st).appeared_strings := by
  constructor
  · have hloop : readStringLoop 1 [Char.ofNat 0] [104, 101, 108, 108, 111, 0] =
        some [Char.ofNat 104, Char.ofNat 101, Char.ofNat 108, Char.ofNat 108,
          Char.ofNat 111] := by
      rw [readStringLoop, readStringLoop, readStringLoop, readStringLoop, readStringLoop,
        readStringLoop]
      norm_num [decodeUtf8Ignore]
      decide
    rw [readCString, hloop]
    rfl
  · have happ : (stringAppearance "hello" st).appeared_strings =
        addTokenPos "hello" st.syscalls_counter st.appeared_strings := rfl
    rw [happ]
    exact mem_lookupPositions_addTokenPos "hello" st.syscalls_counter st.appeared_strings

/-- **C7** (amended): for every wide guest buffer encoding a text of non-null
ASCII characters followed by the two-zero terminator, `read_wstring` returns
exactly that text — the zero bytes interleaved by the UTF-16 encoding are
decoded as embedded null characters and then stripped.  (As the claim
states it, for arbitrary texts, it fails: the chunk-wise UTF-8 re-decoding
mangles non-ASCII characters, see the counterexample.) -/
theorem claim_readWString_strips_nulls (text : List Char)
    (h : ∀ c ∈ text, 0 < c.toNat ∧ c.toNat < 128) (st : LedgerState) :
    readWString (encodeUtf16le text ++ [0, 0]) st =
      some (⟨text⟩, stringAppearance ⟨text⟩ st) := by
  rw [readWString, readStringLoop_wide_ascii text h]
  exact congrArg (fun l => some ((⟨l⟩ : String), stringAppearance ⟨l⟩ st))
    (filter_interleaved_zero text h)

/-- **C7** witness: the wide buffer `61 00 62 00 00 00` (the claim's example
`"ab"` plus the double-zero terminator) decodes to exactly `"ab"`, and the
token `"ab"` is recorded at the current (initial) sequence number. -/
theorem claim_readWString_strips_nulls_witness :
    readWString (encodeUtf16le ['a', 'b'] ++ [0, 0]) ⟨[], 0, []⟩ =
      some ("ab", stringAppearance "ab" ⟨[], 0, []⟩) :=
  claim_readWString_strips_nulls ['a', 'b'] (by decide) ⟨[], 0, []⟩

/-- **C7** counterexample: the claim as stated fails for non-ASCII texts.
The one-character text `"é"` (U+00E9) has the wide encoding `e9 00`; the
chunk-wise UTF-8 re-decoding drops the invalid byte `e9`, leaving only an
embedded null, so `read_wstring` returns `""` instead of `"é"`. -/
theorem claim_readWString_counterexample :
    (readWString (encodeUtf16le [Char.ofNat 233] ++ [0, 0]) ⟨[], 0, []⟩).map Prod.fst =
      some "" ∧
    (some "" : Option String) ≠ some ⟨[Char.ofNat 233]⟩ := by
  constructor
  · have henc : encodeUtf16le [Char.ofNat 233] ++ [0, 0] = [233, 0, 0, 0] := by decide
    rw [readWString, henc, readStringLoop, readStringLoop]
    norm_num [decodeUtf8Ignore]
  · decide

/-! ## printf-style formatting (`__common_printf`, `sprintf`, `printf`) -/

set_option linter.unusedVariables false in
/-- CPython `str.replace(pat, rep)` for a non-empty pattern: scan left to
right, replacing non-overlapping occurrences.  (The source only replaces the
two literal patterns `%llx` and `%p`; an empty pattern never occurs.) -/
def replaceAll (pat rep : List Char) : List Char → List Char
  | [] => []
  | c :: cs =>
    if h : pat ≠ [] ∧ pat.isPrefixOf (c :: cs) then
      rep ++ replaceAll pat rep ((c :: cs).drop pat.length)
    else c :: replaceAll pat rep cs
termination_by s => s.length
decreasing_by
  · have hp : 0 < pat.length := List.length_pos.mpr h.1
    simp only [List.length_drop, List.length_cons]
    omega
  · simp only [List.length_cons]
    omega

/-- CPython's `%` formatting operator (`out % tuple(args)`), modelled only as
far as the verified claims exercise it: a format containing no `%` is
returned unchanged when the argument tuple is empty (with surplus arguments
CPython raises `TypeError: not all arguments converted`); the behaviour of
actual conversion specifiers is left unspecified (`none`). -/
def pyMod (s : List Char) (args : List Nat) : Option (List Char) :=
  if '%' ∈ s then none
  else if args = [] then some s else none

/-- `__common_printf`: split the format on `%`; each piece that begins with
`s` marks a `%s` conversion whose argument would be replaced by a
dereferenced guest string (unmodelled, and unused by a `%`-free format);
then rewrite `%llx` to `%x` and `%p` to `%#x` and apply `%` substitution.
The `wstring` flag only selects the guest string reader for `%s` arguments. -/
def commonPrintf (format : List Char) (args : List Nat) (_wstring : Bool) :
    Option (List Char) :=
  let fmtstr := (splitOnChar '%' format).tail
  if fmtstr.any fun f => f.head? = some 's' then none
  else
    let out := replaceAll ['%', 'l', 'l', 'x'] ['%', 'x'] format
    let out := replaceAll ['%', 'p'] ['%', '#', 'x'] out
    pyMod out args

/-- `sprintf`: format, then write the text null-terminated into guest memory,
UTF-8 (narrow) or UTF-16LE (wide) encoded; the result is the pair
(bytes written at `buff`, returned character count). -/
def sprintf (format : List Char) (args : List Nat) (wstring : Bool) :
    Option (List Nat × Nat) :=
  (commonPrintf format args wstring).map fun out =>
    ((if wstring then encodeUtf16le (out ++ [Char.ofNat 0])
      else encodeUtf8 (out ++ [Char.ofNat 0])), out.length)

/-- `printf`: format, then stream the UTF-8 bytes to the emulated standard
output; the result is the pair (streamed bytes, returned character count). -/
def printf (format : List Char) (args : List Nat) (wstring : Bool) :
    Option (List Nat × Nat) :=
  (commonPrintf format args wstring).map fun out => (encodeUtf8 out, out.length)

theorem splitOnChar_not_mem (sep : Char) (s : List Char) (h : sep ∉ s) :
    splitOnChar sep s = [s] := by
  induction s with
  | nil => rfl
  | cons c cs ih =>
    have hne : ¬c = sep := fun he => h (he ▸ List.mem_cons_self c cs)
    have ihs := ih fun hm => h (List.mem_cons_of_mem c hm)
    simp [splitOnChar, hne, ihs]

theorem replaceAll_not_mem (pt : List Char) (c : Char) (rep s : List Char)
    (h : c ∉ s) : replaceAll (c :: pt) rep s = s := by
  induction s with
  | nil => simp [replaceAll]
  | cons a as ih =>
    have hpre : ¬((c :: pt).isPrefixOf (a :: as) = true) := by
      intro hp
      simp only [List.isPrefixOf, Bool.and_eq_true, beq_iff_eq] at hp
      exact h (hp.1 ▸ List.mem_cons_self a as)
    simp [replaceAll, hpre, ih fun hm => h (List.mem_cons_of_mem a hm)]

/-- **C9**: with a format containing no `%` (and the correspondingly empty
argument list), `__common_printf` returns the format unchanged, `sprintf`
writes exactly its encoding plus a null terminator and returns its character
count, and `printf` streams exactly its UTF-8 encoding and returns its
character count. -/
theorem claim_printf_straight_copy (format : List Char) (h : '%' ∉ format)
    (wstring : Bool) :
    commonPrintf format [] wstring = some format ∧
    sprintf format [] wstring =
      some ((if wstring then encodeUtf16le (format ++ [Char.ofNat 0])
        else encodeUtf8 (format ++ [Char.ofNat 0])), format.length) ∧
    printf format [] wstring = some (encodeUtf8 format, format.length) := by
  have hsplit : splitOnChar '%' format = [format] := splitOnChar_not_mem _ _ h
  have h1 : replaceAll ['%', 'l', 'l', 'x'] ['%', 'x'] format = format :=
    replaceAll_not_mem _ '%' _ _ h
  have h2 : replaceAll ['%', 'p'] ['%', '#', 'x'] format = format :=
    replaceAll_not_mem _ '%' _ _ h
  have hc : commonPrintf format [] wstring = some format := by
    simp [commonPrintf, hsplit, h1, h2, pyMod, h]
  exact ⟨hc, by simp [sprintf, hc], by simp [printf, hc]⟩

/-- **C9** witness: the `%`-free format `"hi"` is copied unchanged by both
operations: `sprintf` writes `68 69 00` and returns 2, `printf` streams
`68 69` and returns 2. -/
theorem claim_printf_straight_copy_witness :
    commonPrintf ['h', 'i'] [] false = some ['h', 'i'] ∧
    sprintf ['h', 'i'] [] false = some ([104, 105, 0], 2) ∧
    printf ['h', 'i'] [] false = some ([104, 105], 2) := by
  obtain ⟨h1, h2, h3⟩ := claim_printf_straight_copy ['h', 'i'] (by decide) false
  refine ⟨h1, ?_, ?_⟩
  · rw [h2]
    decide
  · rw [h3]
    decide

/-! ## Guest memory, heap and the external emulation interface -/

/-- Guest memory: the byte stored at each guest address
(`ql.mem.read` / `ql.mem.write`). -/
abbrev Mem := Nat → Nat

/-- `ql.mem.write(a, bs)`. -/
def memWrite (m : Mem) (a : Nat) : List Nat → Mem
  | [] => m
  | b :: bs => memWrite (fun x => if x = a then b else m x) (a + 1) bs

/-- `ql.mem.read(a, n)`. -/
def memRead (m : Mem) (a : Nat) : Nat → List Nat
  | 0 => []
  | n + 1 => m a :: memRead m (a + 1) n

/-- The guest heap (`ql.os.heap`).  The concrete allocator is an external
collaborator (spec §6); it is modelled as a bump allocator whose addresses
are strictly increasing — in particular pairwise distinct, as any correct
allocator guarantees for live allocations — and which records every
allocation made and every free requested, in order. -/
structure Heap where
  next : Nat
  allocs : List (Nat × Nat)
  freed : List Nat
  deriving DecidableEq

/-- `heap.alloc(size)`: return a fresh address and record the allocation. -/
def Heap.alloc (h : Heap) (sz : Nat) : Nat × Heap :=
  (h.next, ⟨h.next + sz + 1, h.allocs ++ [(h.next, sz)], h.freed⟩)

/-- `heap.free(addr)`: record the free. -/
def Heap.free (h : Heap) (a : Nat) : Heap :=
  ⟨h.next, h.allocs, h.freed ++ [a]⟩

/-- Free every tracked scratch address, in order (the `for addr in
alloc_addr: heap.free(addr)` loop closing `io_Write` and `ioctl`). -/
def freeAll (h : Heap) (as : List Nat) : Heap :=
  as.foldl Heap.free h

/-- The IO_STACK_LOCATION fields assigned by the source (all others stay
zero-initialized). -/
structure IoslFields where
  majorFunction : Nat
  writeLength : Nat
  ioControlCode : Nat
  outputBufferLength : Nat
  inputBufferLength : Nat
  type3InputBuffer : Nat

/-- The IRP fields assigned by the source (all others stay
zero-initialized). -/
structure IrpFields where
  irpstack : Nat
  systemBuffer : Nat
  mdlAddress : Nat
  userBuffer : Nat

/-- The MDL fields assigned by `build_mdl` (all others stay
zero-initialized). -/
structure MdlFields where
  mappedSystemVa : Nat
  startVa : Nat
  byteOffset : Nat
  byteCount : Nat

/-- Modelled from the spec: the bit-exact word-size-dependent kernel
structure layouts (IRP, IO_STACK_LOCATION, MDL, DEVICE_OBJECT, defined in
`qiling.os.windows.structs`, which is outside the verified sources) "must
match the documented native kernel ABI field-for-field and byte-for-byte;
this core consumes that ABI as a fixed external specification rather than
defining it" (spec §6).  The ABI is therefore abstracted: structure sizes,
encoders for the structures the emulator writes, and decoders for the two
reads it performs (the IRP's IoStatus status/information pair, and the
device object's Flags).  The only ABI fact used is the ctypes guarantee
that an encoded structure occupies exactly its declared size.  Selecting
the 32-bit or the 64-bit variant per the emulated bitness amounts to
instantiating this parameter. -/
structure Layout where
  sizeofIRP : Nat
  sizeofIOSL : Nat
  sizeofMDL : Nat
  sizeofDEVOBJ : Nat
  encodeIOSL : IoslFields → List Nat
  encodeIRP : IrpFields → List Nat
  encodeMDL : MdlFields → List Nat
  decodeIoStatus : List Nat → Int × Nat
  decodeDeviceFlags : List Nat → Nat
  encodeIOSL_length : ∀ f, (encodeIOSL f).length = sizeofIOSL
  encodeIRP_length : ∀ f, (encodeIRP f).length = sizeofIRP
  encodeMDL_length : ∀ f, (encodeMDL f).length = sizeofMDL

/-- The emulation environment of one request: the structure ABI, the
loader-provided driver object (its dispatch table `MajorFunction` and its
`DeviceObject` address), and `run`, which bundles the external CPU emulator
(`ql.run`), the fault classifier (`verify_ret`) and the calling-convention
writer: given the dispatch entry address and the guest memory at dispatch
time, it yields `some finalMemory` when the dispatch runs to completion or
its fault is classified benign, and `none` when a fatal fault propagates
out of the request (spec §6, §7). -/
structure Env where
  layout : Layout
  majorFunction : Nat → Nat
  deviceObject : Nat
  run : Nat → Mem → Option Mem

/-- Modelled from the spec: `IRP_MJ_WRITE` of `qiling.os.windows.wdk_const`
(outside the verified sources), standard DDK value. -/
def irpMjWrite : Nat := 4

/-- Modelled from the spec: `IRP_MJ_DEVICE_CONTROL` of
`qiling.os.windows.wdk_const` (outside the verified sources), standard DDK
value. -/
def irpMjDeviceControl : Nat := 14

/-- Modelled from the spec: `METHOD_BUFFERED` — the spec fixes the transfer
method as the low two bits of the control code, with the four standard DDK
values 0..3. -/
def methodBuffered : Nat := 0

/-- Modelled from the spec: `METHOD_IN_DIRECT` (DDK value 1). -/
def methodInDirect : Nat := 1

/-- Modelled from the spec: `METHOD_OUT_DIRECT` (DDK value 2). -/
def methodOutDirect : Nat := 2

/-- Modelled from the spec: `METHOD_NEITHER` (DDK value 3). -/
def methodNeither : Nat := 3

/-- Modelled from the spec: `DO_BUFFERED_IO` device flag (DDK value 0x4). -/
def flagBufferedIo : Nat := 4

/-- Modelled from the spec: `DO_DIRECT_IO` device flag (DDK value 0x10). -/
def flagDirectIo : Nat := 16

/-! ## `QlOsUtils.ioctl` -/

/-- `ioctl_code` (nested in `QlOsUtils.ioctl`): pack device type, access,
function number and transfer method into a control code. -/
def ioctl_code (deviceType functionCode method access : Nat) : Nat :=
  (deviceType <<< 16) ||| (access <<< 14) ||| (functionCode <<< 2) ||| method

/-- Everything the Allocate/Populate phase of `ioctl` produces: the
addresses handed out, the accumulated `alloc_addr` scratch list, and the
heap and guest memory at dispatch time. -/
structure IoctlSetup where
  inputBufferAddr : Nat
  outputBufferAddr : Nat
  irpAddr : Nat
  irpstackAddr : Nat
  systemBufferSize : Nat
  systemBufferAddr : Nat
  mdlMapped : Option Nat
  mdlAddr : Option Nat
  allocAddr : List Nat
  heap : Heap
  mem : Mem

/-- The Allocate/Populate phase of `QlOsUtils.ioctl` (everything between the
dispatch-table check and `ql.run`), statement for statement: allocate and
fill the input buffer, allocate the output buffer, the IRP and the
IO_STACK_LOCATION, write the stack location (control code, lengths,
Type3InputBuffer), point the IRP's UserBuffer at the output buffer for
METHOD_NEITHER, allocate the system buffer sized to
`max(inputLen, outputLen)` and pre-fill it with the input bytes, and for the
two direct methods build an MDL over a freshly allocated buffer
(`build_mdl`, called without data, so nothing is copied into it) plus the
MDL's own backing storage; finally write the IRP. -/
def ioctlSetup (env : Env) (h0 : Heap) (m0 : Mem)
    (deviceType functionCode ctlMethod access : Nat)
    (outputBufferSize : Nat) (inBuffer : List Nat) : IoctlSetup :=
  let inputBufferSize := inBuffer.length
  let (inputBufferAddr, h1) := h0.alloc inputBufferSize
  let m1 := memWrite m0 inputBufferAddr inBuffer
  let (outputBufferAddr, h2) := h1.alloc outputBufferSize
  let (irpAddr, h3) := h2.alloc env.layout.sizeofIRP
  let (irpstackAddr, h4) := h3.alloc env.layout.sizeofIOSL
  let iosl : IoslFields :=
    { majorFunction := 0
      writeLength := 0
      ioControlCode := ioctl_code deviceType functionCode ctlMethod access
      outputBufferLength := outputBufferSize
      inputBufferLength := inputBufferSize
      type3InputBuffer := inputBufferAddr }
  let m2 := memWrite m1 irpstackAddr (env.layout.encodeIOSL iosl)
  let userBuffer := if ctlMethod = methodNeither then outputBufferAddr else 0
  let systemBufferSize := max inputBufferSize outputBufferSize
  let (systemBufferAddr, h5) := h4.alloc systemBufferSize
  let m3 := memWrite m2 systemBufferAddr inBuffer
  if ctlMethod = methodInDirect ∨ ctlMethod = methodOutDirect then
    let (mappedAddress, h6) := h5.alloc outputBufferSize
    let mdl : MdlFields :=
      { mappedSystemVa := mappedAddress
        startVa := mappedAddress
        byteOffset := 0
        byteCount := outputBufferSize }
    let (mdlAddr, h7) := h6.alloc env.layout.sizeofMDL
    let m4 := memWrite m3 mdlAddr (env.layout.encodeMDL mdl)
    let irp : IrpFields :=
      { irpstack := irpstackAddr
        systemBuffer := systemBufferAddr
        mdlAddress := mdlAddr
        userBuffer := userBuffer }
    let m5 := memWrite m4 irpAddr (env.layout.encodeIRP irp)
    ⟨inputBufferAddr, outputBufferAddr, irpAddr, irpstackAddr, systemBufferSize,
      systemBufferAddr, some mappedAddress, some mdlAddr,
      [inputBufferAddr, outputBufferAddr, irpAddr, irpstackAddr, systemBufferAddr,
        mappedAddress, mdlAddr], h7, m5⟩
  else
    let irp : IrpFields :=
      { irpstack := irpstackAddr
        systemBuffer := systemBufferAddr
        mdlAddress := 0
        userBuffer := userBuffer }
    let m5 := memWrite m3 irpAddr (env.layout.encodeIRP irp)
    ⟨inputBufferAddr, outputBufferAddr, irpAddr, irpstackAddr, systemBufferSize,
      systemBufferAddr, none, none,
      [inputBufferAddr, outputBufferAddr, irpAddr, irpstackAddr, systemBufferAddr],
      h5, m5⟩

/-- `QlOsUtils.ioctl` on Windows, end to end.  The request is the control
code tuple `(deviceType, functionCode, ctlMethod, access)`, the output
buffer size, and the input bytes.  The Python triple
`(Status, Information, output_data)` is modelled componentwise by `Option`s
so that the early `return (None, None, None)` of an unregistered
DEVICE_CONTROL entry keeps its exact shape; the outer `Option` is `none`
when a fatal dispatch fault propagates (in which case nothing is freed).
The source reads `output_data` with three separate `if` statements keyed to
the four pairwise-distinct method values, which is the `if`/`else if` chain
here. -/
def ioctl (env : Env) (h0 : Heap) (m0 : Mem)
    (deviceType functionCode ctlMethod access : Nat)
    (outputBufferSize : Nat) (inBuffer : List Nat) :
    Option ((Option Int × Option Nat × Option (List Nat)) × Heap × Mem) :=
  if env.majorFunction irpMjDeviceControl = 0 then
    some ((none, none, none), h0, m0)
  else
    let s := ioctlSetup env h0 m0 deviceType functionCode ctlMethod access
      outputBufferSize inBuffer
    match env.run (env.majorFunction irpMjDeviceControl) s.mem with
    | none => none
    | some m6 =>
      let ioStatus := env.layout.decodeIoStatus (memRead m6 s.irpAddr env.layout.sizeofIRP)
      let outputData :=
        if 0 ≤ ioStatus.1 then
          if ctlMethod = methodBuffered then
            memRead m6 s.systemBufferAddr ioStatus.2
          else if ctlMethod = methodInDirect ∨ ctlMethod = methodOutDirect then
            memRead m6 (s.mdlMapped.getD 0) ioStatus.2
          else if ctlMethod = methodNeither then
            memRead m6 s.outputBufferAddr ioStatus.2
          else []
        else []
      some ((some ioStatus.1, some ioStatus.2, some outputData),
        freeAll s.heap s.allocAddr, m6)

/-! ## `QlOsUtils.io_Write` -/

/-- Everything the Allocate/Populate phase of `io_Write` produces. -/
structure WriteSetup where
  irpAddr : Nat
  irpstackAddr : Nat
  allocAddr : List Nat
  heap : Heap
  mem : Mem

/-- The Allocate/Populate phase of `QlOsUtils.io_Write`: read the device
object and its Flags, allocate the IRP and the IO_STACK_LOCATION, write the
stack location (major function WRITE, write length), then per the device
flags allocate a system buffer pre-filled with the input (buffered I/O), or
an MDL over a freshly allocated buffer of the input's size plus the MDL's
backing storage (`build_mdl` without data — nothing is copied; direct I/O),
or an input buffer referenced by the IRP's UserBuffer (neither); finally
write the IRP. -/
def ioWriteSetup (env : Env) (h0 : Heap) (m0 : Mem) (inBuffer : List Nat) : WriteSetup :=
  let flags := env.layout.decodeDeviceFlags
    (memRead m0 env.deviceObject env.layout.sizeofDEVOBJ)
  let (irpAddr, h1) := h0.alloc env.layout.sizeofIRP
  let (irpstackAddr, h2) := h1.alloc env.layout.sizeofIOSL
  let iosl : IoslFields :=
    { majorFunction := irpMjWrite
      writeLength := inBuffer.length
      ioControlCode := 0
      outputBufferLength := 0
      inputBufferLength := 0
      type3InputBuffer := 0 }
  let m1 := memWrite m0 irpstackAddr (env.layout.encodeIOSL iosl)
  if flags &&& flagBufferedIo ≠ 0 then
    let (systemBufferAddr, h3) := h2.alloc inBuffer.length
    let m2 := memWrite m1 systemBufferAddr inBuffer
    let irp : IrpFields :=
      { irpstack := irpstackAddr, systemBuffer := systemBufferAddr
        mdlAddress := 0, userBuffer := 0 }
    let m3 := memWrite m2 irpAddr (env.layout.encodeIRP irp)
    ⟨irpAddr, irpstackAddr, [irpAddr, irpstackAddr, systemBufferAddr], h3, m3⟩
  else if flags &&& flagDirectIo ≠ 0 then
    let (mappedAddress, h3) := h2.alloc inBuffer.length
    let mdl : MdlFields :=
      { mappedSystemVa := mappedAddress, startVa := mappedAddress
        byteOffset := 0, byteCount := inBuffer.length }
    let (mdlAddr, h4) := h3.alloc env.layout.sizeofMDL
    let m2 := memWrite m1 mdlAddr (env.layout.encodeMDL mdl)
    let irp : IrpFields :=
      { irpstack := irpstackAddr, systemBuffer := 0
        mdlAddress := mdlAddr, userBuffer := 0 }
    let m3 := memWrite m2 irpAddr (env.layout.encodeIRP irp)
    ⟨irpAddr, irpstackAddr, [irpAddr, irpstackAddr, mappedAddress, mdlAddr], h4, m3⟩
  else
    let (inputBufferAddr, h3) := h2.alloc inBuffer.length
    let m2 := memWrite m1 inputBufferAddr inBuffer
    let irp : IrpFields :=
      { irpstack := irpstackAddr, systemBuffer := 0
        mdlAddress := 0, userBuffer := inputBufferAddr }
    let m3 := memWrite m2 irpAddr (env.layout.encodeIRP irp)
    ⟨irpAddr, irpstackAddr, [irpAddr, irpstackAddr, inputBufferAddr], h3, m3⟩

/-- `QlOsUtils.io_Write` on Windows, end to end: reject with
`(False, None)` when the WRITE dispatch entry is the null address; otherwise
build the request, dispatch it, re-read the IRP, free all scratch
allocations and return `(True, IoStatus.Information)`.  The outer `Option`
is `none` when a fatal dispatch fault propagates. -/
def ioWrite (env : Env) (h0 : Heap) (m0 : Mem) (inBuffer : List Nat) :
    Option ((Bool × Option Nat) × Heap × Mem) :=
  if env.majorFunction irpMjWrite = 0 then
    some ((false, none), h0, m0)
  else
    let s := ioWriteSetup env h0 m0 inBuffer
    match env.run (env.majorFunction irpMjWrite) s.mem with
    | none => none
    | some m4 =>
      let info := (env.layout.decodeIoStatus (memRead m4 s.irpAddr env.layout.sizeofIRP)).2
      some ((true, some info), freeAll s.heap s.allocAddr, m4)

/-! ## Memory and heap lemmas -/

theorem memWrite_apply_lt (m : Mem) (a : Nat) (bs : List Nat) (x : Nat) (h : x < a) :
    memWrite m a bs x = m x := by
  induction bs generalizing m a with
  | nil => rfl
  | cons b bs ih =>
    show memWrite (fun y => if y = a then b else m y) (a + 1) bs x = m x
    rw [ih _ _ (by omega)]
    simp [Nat.ne_of_lt h]

theorem memWrite_apply_ge (m : Mem) (a : Nat) (bs : List Nat) (x : Nat)
    (h : a + bs.length ≤ x) : memWrite m a bs x = m x := by
  induction bs generalizing m a with
  | nil => rfl
  | cons b bs ih =>
    simp only [List.length_cons] at h
    show memWrite (fun y => if y = a then b else m y) (a + 1) bs x = m x
    rw [ih _ _ (by omega)]
    have hxa : ¬(x = a) := by omega
    simp [hxa]

theorem memRead_congr (m1 m2 : Mem) (a n : Nat)
    (h : ∀ y, a ≤ y → y < a + n → m1 y = m2 y) : memRead m1 a n = memRead m2 a n := by
  induction n generalizing a with
  | zero => rfl
  | succ n ih =>
    show m1 a :: memRead m1 (a + 1) n = m2 a :: memRead m2 (a + 1) n
    rw [h a (le_refl a) (by omega), ih (a + 1) fun y hy1 hy2 => h y (by omega) (by omega)]

theorem memRead_memWrite_self (m : Mem) (a : Nat) (bs : List Nat) :
    memRead (memWrite m a bs) a bs.length = bs := by
  induction bs generalizing m a with
  | nil => rfl
  | cons b bs ih =>
    show (memWrite (fun y => if y = a then b else m y) (a + 1) bs) a ::
        memRead (memWrite (fun y => if y = a then b else m y) (a + 1) bs) (a + 1) bs.length =
      b :: bs
    rw [memWrite_apply_lt _ _ _ _ (Nat.lt_succ_self a), ih]
    simp

theorem memRead_memWrite_of_le (m : Mem) (a : Nat) (bs : List Nat) (x n : Nat)
    (h : a + bs.length ≤ x) : memRead (memWrite m a bs) x n = memRead m x n :=
  memRead_congr _ _ _ _ fun y hy1 _ => memWrite_apply_ge _ _ _ _ (by omega)

theorem freeAll_freed (h : Heap) (as : List Nat) :
    (freeAll h as).freed = h.freed ++ as := by
  induction as generalizing h with
  | nil => simp [freeAll]
  | cons a as ih =>
    show (freeAll (h.free a) as).freed = h.freed ++ a :: as
    rw [ih (h.free a)]
    simp [Heap.free]

/-- A concrete ABI/environment instance for evaluating the emulation on
closed inputs: all structure sizes are zero, the IoStatus decodes to the
fixed pair `(st, info)`, the device flags decode to `DO_BUFFERED_IO`, both
dispatch entries are `dc`, and a dispatch run leaves the all-zero memory. -/
def testEnv (st : Int) (info : Nat) (dc : Nat) : Env :=
  { layout :=
      { sizeofIRP := 0, sizeofIOSL := 0, sizeofMDL := 0, sizeofDEVOBJ := 0
        encodeIOSL := fun _ => [], encodeIRP := fun _ => [], encodeMDL := fun _ => []
        decodeIoStatus := fun _ => (st, info)
        decodeDeviceFlags := fun _ => flagBufferedIo
        encodeIOSL_length := fun _ => rfl
        encodeIRP_length := fun _ => rfl
        encodeMDL_length := fun _ => rfl }
    majorFunction := fun _ => dc
    deviceObject := 0
    run := fun _ _ => some fun _ => 0 }

/-! ## Claim C4: the IOCTL control-code layout -/

/-- **C4**: `ioctl_code` packs its arguments exactly as
`(deviceType <<< 16) ||| (access <<< 14) ||| (functionCode <<< 2) ||| method`,
and for every 2-bit method the low two bits of the result recover the
method unchanged. -/
theorem claim_ioctl_code_layout (deviceType functionCode access m : Nat)
    (hm : m < 4) :
    ioctl_code deviceType functionCode m access =
      ((deviceType <<< 16) ||| (access <<< 14) ||| (functionCode <<< 2) ||| m) ∧
    ioctl_code deviceType functionCode m access % 4 = m := by
  refine ⟨rfl, ?_⟩
  have hand : ∀ x : Nat, x &&& 3 = x % 4 := by
    intro x
    have h := Nat.and_pow_two_sub_one_eq_mod x 2
    norm_num at h
    exact h
  have e1 : (deviceType <<< 16) % 4 = 0 := by
    have h16 : (2 : Nat) ^ 16 = 65536 := by norm_num
    rw [Nat.shiftLeft_eq, h16]
    omega
  have e2 : (access <<< 14) % 4 = 0 := by
    have h14 : (2 : Nat) ^ 14 = 16384 := by norm_num
    rw [Nat.shiftLeft_eq, h14]
    omega
  have e3 : (functionCode <<< 2) % 4 = 0 := by
    have h2 : (2 : Nat) ^ 2 = 4 := by norm_num
    rw [Nat.shiftLeft_eq, h2]
    omega
  have hmain : ioctl_code deviceType functionCode m access &&& 3 = m := by
    rw [ioctl_code, Nat.and_distrib_right, Nat.and_distrib_right, Nat.and_distrib_right,
      hand, hand, hand, hand, e1, e2, e3, Nat.mod_eq_of_lt hm]
    simp
  calc ioctl_code deviceType functionCode m access % 4
      = ioctl_code deviceType functionCode m access &&& 3 := (hand _).symm
    _ = m := hmain

/-- **C4** witness: at `deviceType = 3`, `functionCode = 7`, `method = 2`,
`access = 1` the control code has the stated bit layout and its low two
bits are `2`. -/
theorem claim_ioctl_code_layout_witness :
    ioctl_code 3 7 2 1 = ((3 <<< 16) ||| (1 <<< 14) ||| (7 <<< 2) ||| 2) ∧
    ioctl_code 3 7 2 1 % 4 = 2 :=
  claim_ioctl_code_layout 3 7 1 2 (by decide)

/-! ## Claim C1: unregistered DEVICE_CONTROL entry -/

/-- **C1** (amended): when the DEVICE_CONTROL dispatch-table entry is the
null address, `ioctl` returns the Python triple `(None, None, None)` — the
output component is `None`, not an empty byte string — with the heap and
guest memory untouched (so no guest-heap allocation happened), and without
invoking any emulation: the result is the same for every `env.run`. -/
theorem claim_ioctl_unregistered_rejects (env : Env) (h0 : Heap) (m0 : Mem)
    (deviceType functionCode ctlMethod access outputBufferSize : Nat)
    (inBuffer : List Nat) (hdc : env.majorFunction irpMjDeviceControl = 0) :
    ioctl env h0 m0 deviceType functionCode ctlMethod access outputBufferSize
      inBuffer = some ((none, none, none), h0, m0) := by
  simp [ioctl, hdc]

/-- **C1** witness: a concrete environment with a null DEVICE_CONTROL entry
is rejected with `(None, None, None)` and an unchanged heap and memory. -/
theorem claim_ioctl_unregistered_rejects_witness :
    ioctl (testEnv 0 7 0) ⟨0, [], []⟩ (fun _ => 0) 0 0 0 0 0 [] =
      some ((none, none, none), ⟨0, [], []⟩, fun _ => 0) :=
  claim_ioctl_unregistered_rejects (testEnv 0 7 0) ⟨0, [], []⟩ (fun _ => 0)
    0 0 0 0 0 [] rfl

/-- **C1** counterexample: the claim as stated promises the triple
`(None, None, empty output bytes)`; the source returns `(None, None, None)`,
whose output component is `None` and not the empty byte string. -/
theorem claim_ioctl_unregistered_counterexample :
    (ioctl (testEnv 0 7 0) ⟨0, [], []⟩ (fun _ => 0) 0 0 0 0 0 []).map
      (fun r => r.1.2.2) = some none ∧
    (none : Option (List Nat)) ≠ some [] := by
  exact ⟨rfl, by decide⟩

/-! ## Scratch-allocation accounting (claims C2, C10) -/

theorem ioctlSetup_freed (env : Env) (h0 : Heap) (m0 : Mem)
    (d f cm ac osz : Nat) (buf : List Nat) :
    (ioctlSetup env h0 m0 d f cm ac osz buf).heap.freed = h0.freed := by
  by_cases hdir : cm = methodInDirect ∨ cm = methodOutDirect <;>
    simp [ioctlSetup, Heap.alloc, hdir]

theorem ioctlSetup_allocs (env : Env) (h0 : Heap) (m0 : Mem)
    (d f cm ac osz : Nat) (buf : List Nat) :
    (ioctlSetup env h0 m0 d f cm ac osz buf).heap.allocs.map Prod.fst =
      h0.allocs.map Prod.fst ++ (ioctlSetup env h0 m0 d f cm ac osz buf).allocAddr := by
  by_cases hdir : cm = methodInDirect ∨ cm = methodOutDirect <;>
    simp [ioctlSetup, Heap.alloc, hdir]

theorem ioctlSetup_nodup (env : Env) (h0 : Heap) (m0 : Mem)
    (d f cm ac osz : Nat) (buf : List Nat) :
    (ioctlSetup env h0 m0 d f cm ac osz buf).allocAddr.Nodup := by
  by_cases hdir : cm = methodInDirect ∨ cm = methodOutDirect
  · simp only [ioctlSetup, Heap.alloc, hdir, if_pos]
    simp [List.nodup_cons]
    omega
  · simp only [ioctlSetup, Heap.alloc, hdir, if_neg, not_false_iff]
    simp [List.nodup_cons]
    omega

theorem ioWriteSetup_freed (env : Env) (h0 : Heap) (m0 : Mem) (buf : List Nat) :
    (ioWriteSetup env h0 m0 buf).heap.freed = h0.freed := by
  by_cases hb : env.layout.decodeDeviceFlags
      (memRead m0 env.deviceObject env.layout.sizeofDEVOBJ) &&& flagBufferedIo ≠ 0
  · simp [ioWriteSetup, Heap.alloc, hb]
  · by_cases hd : env.layout.decodeDeviceFlags
        (memRead m0 env.deviceObject env.layout.sizeofDEVOBJ) &&& flagDirectIo ≠ 0 <;>
      simp [ioWriteSetup, Heap.alloc, hb, hd]

theorem ioWriteSetup_allocs (env : Env) (h0 : Heap) (m0 : Mem) (buf : List Nat) :
    (ioWriteSetup env h0 m0 buf).heap.allocs.map Prod.fst =
      h0.allocs.map Prod.fst ++ (ioWriteSetup env h0 m0 buf).allocAddr := by
  by_cases hb : env.layout.decodeDeviceFlags
      (memRead m0 env.deviceObject env.layout.sizeofDEVOBJ) &&& flagBufferedIo ≠ 0
  · simp [ioWriteSetup, Heap.alloc, hb]
  · by_cases hd : env.layout.decodeDeviceFlags
        (memRead m0 env.deviceObject env.layout.sizeofDEVOBJ) &&& flagDirectIo ≠ 0 <;>
      simp [ioWriteSetup, Heap.alloc, hb, hd]

theorem ioWriteSetup_nodup (env : Env) (h0 : Heap) (m0 : Mem) (buf : List Nat) :
    (ioWriteSetup env h0 m0 buf).allocAddr.Nodup := by
  unfold ioWriteSetup
  simp only [Heap.alloc]
  split
  · simp [List.nodup_cons]
    omega
  · split
    · simp [List.nodup_cons]
      omega
    · simp [List.nodup_cons]
      omega

/-- **C2**: for every device-write and every IOCTL request that reaches
completion (the dispatch ran to completion or its fault was classified
benign, i.e. `env.run` yielded a final memory), the scratch list
`alloc_addr` covers every allocation the request made, its addresses are
pairwise distinct, and the frees performed before returning are exactly
those addresses in order — so every address appended to the
ScratchAllocationSet is freed exactly once by the time the call returns. -/
theorem claim_scratch_freed_exactly_once :
    (∀ env h0 m0 buf r hf mf,
      ioWrite env h0 m0 buf = some (r, hf, mf) →
      env.majorFunction irpMjWrite ≠ 0 →
      hf.freed = h0.freed ++ (ioWriteSetup env h0 m0 buf).allocAddr ∧
      (ioWriteSetup env h0 m0 buf).heap.allocs.map Prod.fst =
        h0.allocs.map Prod.fst ++ (ioWriteSetup env h0 m0 buf).allocAddr ∧
      (ioWriteSetup env h0 m0 buf).allocAddr.Nodup ∧
      ∀ a ∈ (ioWriteSetup env h0 m0 buf).allocAddr,
        (hf.freed.drop h0.freed.length).count a = 1) ∧
    (∀ env h0 m0 d f cm ac osz buf r hf mf,
      ioctl env h0 m0 d f cm ac osz buf = some (r, hf, mf) →
      env.majorFunction irpMjDeviceControl ≠ 0 →
      hf.freed = h0.freed ++ (ioctlSetup env h0 m0 d f cm ac osz buf).allocAddr ∧
      (ioctlSetup env h0 m0 d f cm ac osz buf).heap.allocs.map Prod.fst =
        h0.allocs.map Prod.fst ++ (ioctlSetup env h0 m0 d f cm ac osz buf).allocAddr ∧
      (ioctlSetup env h0 m0 d f cm ac osz buf).allocAddr.Nodup ∧
      ∀ a ∈ (ioctlSetup env h0 m0 d f cm ac osz buf).allocAddr,
        (hf.freed.drop h0.freed.length).count a = 1) := by
  constructor
  · intro env h0 m0 buf r hf mf heq hw
    simp only [ioWrite, if_neg hw] at heq
    rcases hrun : env.run (env.majorFunction irpMjWrite) (ioWriteSetup env h0 m0 buf).mem
      with _ | m4
    · rw [hrun] at heq
      simp at heq
    · rw [hrun] at heq
      simp only [Option.some_inj, Prod.mk.injEq] at heq
      obtain ⟨-, hhf, -⟩ := heq
      have hfreed : hf.freed = h0.freed ++ (ioWriteSetup env h0 m0 buf).allocAddr := by
        rw [← hhf, freeAll_freed, ioWriteSetup_freed]
      refine ⟨hfreed, ioWriteSetup_allocs env h0 m0 buf, ioWriteSetup_nodup env h0 m0 buf,
        fun a ha => ?_⟩
      rw [hfreed, List.drop_left]
      exact List.count_eq_one_of_mem (ioWriteSetup_nodup env h0 m0 buf) ha
  · intro env h0 m0 d f cm ac osz buf r hf mf heq hdc
    simp only [ioctl, if_neg hdc] at heq
    rcases hrun : env.run (env.majorFunction irpMjDeviceControl)
        (ioctlSetup env h0 m0 d f cm ac osz buf).mem with _ | m6
    · rw [hrun] at heq
      simp at heq
    · rw [hrun] at heq
      simp only [Option.some_inj, Prod.mk.injEq] at heq
      obtain ⟨-, hhf, -⟩ := heq
      have hfreed : hf.freed =
          h0.freed ++ (ioctlSetup env h0 m0 d f cm ac osz buf).allocAddr := by
        rw [← hhf, freeAll_freed, ioctlSetup_freed]
      refine ⟨hfreed, ioctlSetup_allocs env h0 m0 d f cm ac osz buf,
        ioctlSetup_nodup env h0 m0 d f cm ac osz buf, fun a ha => ?_⟩
      rw [hfreed, List.drop_left]
      exact List.count_eq_one_of_mem (ioctlSetup_nodup env h0 m0 d f cm ac osz buf) ha

/-- **C2** witness: a concrete completed buffered device-write (zero-size
ABI, empty payload): the three scratch allocations `0, 1, 2` are exactly the
addresses freed, each once. -/
theorem claim_scratch_freed_exactly_once_witness :
    (⟨3, [(0, 0), (1, 0), (2, 0)], [0, 1, 2]⟩ : Heap).freed =
      [] ++ (ioWriteSetup (testEnv 0 7 1) ⟨0, [], []⟩ (fun _ => 0) []).allocAddr ∧
    (ioWriteSetup (testEnv 0 7 1) ⟨0, [], []⟩ (fun _ => 0) []).heap.allocs.map Prod.fst =
      ([] : List (Nat × Nat)).map Prod.fst ++
        (ioWriteSetup (testEnv 0 7 1) ⟨0, [], []⟩ (fun _ => 0) []).allocAddr ∧
    (ioWriteSetup (testEnv 0 7 1) ⟨0, [], []⟩ (fun _ => 0) []).allocAddr.Nodup ∧
    ∀ a ∈ (ioWriteSetup (testEnv 0 7 1) ⟨0, [], []⟩ (fun _ => 0) []).allocAddr,
      (((⟨3, [(0, 0), (1, 0), (2, 0)], [0, 1, 2]⟩ : Heap).freed.drop
        ([] : List Nat).length).count a) = 1 :=
  claim_scratch_freed_exactly_once.1 (testEnv 0 7 1) ⟨0, [], []⟩ (fun _ => 0) []
    (true, some 7) ⟨3, [(0, 0), (1, 0), (2, 0)], [0, 1, 2]⟩ (fun _ => 0) rfl (by decide)

/-- **C10**: whenever the device-write dispatch completes (normally or after
a benign-classified fault), `io_Write` returns the success flag `True`
together with the IRP's information count — the result status the driver
stored in the IRP's IoStatus is never consulted (the conclusion holds for
every `decodeIoStatus`, i.e. for every stored status value). -/
theorem claim_ioWrite_success_flag (env : Env) (h0 : Heap) (m0 : Mem)
    (buf : List Nat) (r : Bool × Option Nat) (hf : Heap) (mf : Mem)
    (hw : env.majorFunction irpMjWrite ≠ 0)
    (heq : ioWrite env h0 m0 buf = some (r, hf, mf)) :
    r = (true, some (env.layout.decodeIoStatus
      (memRead mf (ioWriteSetup env h0 m0 buf).irpAddr env.layout.sizeofIRP)).2) := by
  simp only [ioWrite, if_neg hw] at heq
  rcases hrun : env.run (env.majorFunction irpMjWrite) (ioWriteSetup env h0 m0 buf).mem
    with _ | m4
  · rw [hrun] at heq
    simp at heq
  · rw [hrun] at heq
    simp only [Option.some_inj, Prod.mk.injEq] at heq
    obtain ⟨hr, -, hmf⟩ := heq
    rw [← hr, ← hmf]

/-- **C10** witness: a concrete completed write whose driver-stored status
decodes to `-1` (failure) still returns `(True, 7)`. -/
theorem claim_ioWrite_success_flag_witness :
    ((true, some 7) : Bool × Option Nat) =
      (true, some ((testEnv (-1) 7 1).layout.decodeIoStatus
        (memRead (fun _ => 0)
          (ioWriteSetup (testEnv (-1) 7 1) ⟨0, [], []⟩ (fun _ => 0) []).irpAddr
          (testEnv (-1) 7 1).layout.sizeofIRP)).2) ∧
    ((testEnv (-1) 7 1).layout.decodeIoStatus []).1 < 0 :=
  ⟨claim_ioWrite_success_flag (testEnv (-1) 7 1) ⟨0, [], []⟩ (fun _ => 0) []
    (true, some 7) ⟨3, [(0, 0), (1, 0), (2, 0)], [0, 1, 2]⟩ (fun _ => 0)
    (by decide) rfl, by decide⟩

/-! ## Claim C5: the Recover step -/

/-- The status/information pair obtained by re-reading the IRP from the
post-dispatch guest memory (`io_status = irp.IoStatus` after
`IRP.from_buffer`). -/
def recoveredIoStatus (env : Env) (s : IoctlSetup) (mf : Mem) : Int × Nat :=
  env.layout.decodeIoStatus (memRead mf s.irpAddr env.layout.sizeofIRP)

/-- The output payload of the Recover step of `ioctl`: read only when the
recovered status indicates success (`>= 0`), from the location the
buffering method dictates, sized to the information count; empty
otherwise. -/
def recoveredOutput (env : Env) (s : IoctlSetup) (cm : Nat) (mf : Mem) : List Nat :=
  if 0 ≤ (recoveredIoStatus env s mf).1 then
    if cm = methodBuffered then
      memRead mf s.systemBufferAddr (recoveredIoStatus env s mf).2
    else if cm = methodInDirect ∨ cm = methodOutDirect then
      memRead mf (s.mdlMapped.getD 0) (recoveredIoStatus env s mf).2
    else if cm = methodNeither then
      memRead mf s.outputBufferAddr (recoveredIoStatus env s mf).2
    else []
  else []

theorem ioctlSetup_mdlMapped (env : Env) (h0 : Heap) (m0 : Mem)
    (d f cm ac osz : Nat) (buf : List Nat)
    (hdir : cm = methodInDirect ∨ cm = methodOutDirect) :
    (ioctlSetup env h0 m0 d f cm ac osz buf).mdlMapped.isSome := by
  simp [ioctlSetup, Heap.alloc, hdir]

/-- **C5**: every completed IOCTL returns the triple
`(Status, Information, output)` where status and information are recovered
by re-reading the IRP from the post-dispatch memory, and the output payload
is read only on success (`status >= 0`), from the system buffer for
METHOD_BUFFERED, from the MDL's mapped buffer for
METHOD_IN_DIRECT/METHOD_OUT_DIRECT (which the setup indeed created), and
from the output buffer for METHOD_NEITHER, sized to the information count;
on a failure status the payload is empty. -/
theorem claim_ioctl_recover_output (env : Env) (h0 : Heap) (m0 : Mem)
    (d f cm ac osz : Nat) (buf : List Nat)
    (r : Option Int × Option Nat × Option (List Nat)) (hf : Heap) (mf : Mem)
    (hdc : env.majorFunction irpMjDeviceControl ≠ 0)
    (heq : ioctl env h0 m0 d f cm ac osz buf = some (r, hf, mf)) :
    r = (some (recoveredIoStatus env (ioctlSetup env h0 m0 d f cm ac osz buf) mf).1,
      some (recoveredIoStatus env (ioctlSetup env h0 m0 d f cm ac osz buf) mf).2,
      some (recoveredOutput env (ioctlSetup env h0 m0 d f cm ac osz buf) cm mf)) ∧
    ((cm = methodInDirect ∨ cm = methodOutDirect) →
      (ioctlSetup env h0 m0 d f cm ac osz buf).mdlMapped.isSome) := by
  refine ⟨?_, ioctlSetup_mdlMapped env h0 m0 d f cm ac osz buf⟩
  simp only [ioctl, if_neg hdc] at heq
  rcases hrun : env.run (env.majorFunction irpMjDeviceControl)
      (ioctlSetup env h0 m0 d f cm ac osz buf).mem with _ | m6
  · rw [hrun] at heq
    simp at heq
  · rw [hrun] at heq
    simp only [Option.some_inj, Prod.mk.injEq] at heq
    obtain ⟨hr, -, hmf⟩ := heq
    rw [← hr, ← hmf]
    rfl

/-- **C5** witness: a concrete buffered IOCTL (input `[5, 6]`, success
status `0`, information `2`) completes with the output read from the system
buffer, and the returned triple matches the recovered values. -/
theorem claim_ioctl_recover_output_witness :
    ioctl (testEnv 0 2 1) ⟨0, [], []⟩ (fun _ => 0) 0 0 methodBuffered 0 0 [5, 6] =
      some ((some 0, some 2, some [0, 0]),
        ⟨9, [(0, 2), (3, 0), (4, 0), (5, 0), (6, 2)], [0, 3, 4, 5, 6]⟩, fun _ => 0) ∧
    ((some 0, some 2, some [0, 0]) : Option Int × Option Nat × Option (List Nat)) =
      (some (recoveredIoStatus (testEnv 0 2 1)
          (ioctlSetup (testEnv 0 2 1) ⟨0, [], []⟩ (fun _ => 0) 0 0 methodBuffered 0 0
            [5, 6]) (fun _ => 0)).1,
        some (recoveredIoStatus (testEnv 0 2 1)
          (ioctlSetup (testEnv 0 2 1) ⟨0, [], []⟩ (fun _ => 0) 0 0 methodBuffered 0 0
            [5, 6]) (fun _ => 0)).2,
        some (recoveredOutput (testEnv 0 2 1)
          (ioctlSetup (testEnv 0 2 1) ⟨0, [], []⟩ (fun _ => 0) 0 0 methodBuffered 0 0
            [5, 6]) methodBuffered (fun _ => 0))) :=
  ⟨rfl,
    (claim_ioctl_recover_output (testEnv 0 2 1) ⟨0, [], []⟩ (fun _ => 0) 0 0
      methodBuffered 0 0 [5, 6] (some 0, some 2, some [0, 0])
      ⟨9, [(0, 2), (3, 0), (4, 0), (5, 0), (6, 2)], [0, 3, 4, 5, 6]⟩ (fun _ => 0)
      (by decide) rfl).1⟩

/-! ## Claim C3: the METHOD_BUFFERED system buffer -/

/-- **C3** (amended): for a METHOD_BUFFERED IOCTL the Allocate step
allocates a single system buffer and pre-fills it with the input bytes —
but its size is `max(input length, output length)`
(`max(input_buffer_size, output_buffer_size)` in the source), not the input
length the claim states.  At dispatch time the buffer's first
`input length` bytes are exactly the input. -/
theorem claim_ioctl_buffered_system_buffer (env : Env) (h0 : Heap) (m0 : Mem)
    (d f ac osz : Nat) (buf : List Nat) :
    (ioctlSetup env h0 m0 d f methodBuffered ac osz buf).systemBufferSize =
      max buf.length osz ∧
    ((ioctlSetup env h0 m0 d f methodBuffered ac osz buf).systemBufferAddr,
        max buf.length osz) ∈
      (ioctlSetup env h0 m0 d f methodBuffered ac osz buf).heap.allocs ∧
    memRead (ioctlSetup env h0 m0 d f methodBuffered ac osz buf).mem
      (ioctlSetup env h0 m0 d f methodBuffered ac osz buf).systemBufferAddr
      buf.length = buf := by
  have hdir : ¬(methodBuffered = methodInDirect ∨ methodBuffered = methodOutDirect) := by
    decide
  refine ⟨?_, ?_, ?_⟩
  · simp [ioctlSetup, Heap.alloc, hdir]
  · simp [ioctlSetup, Heap.alloc, hdir]
  · simp only [ioctlSetup, Heap.alloc, hdir, if_neg, not_false_iff]
    rw [memRead_memWrite_of_le]
    · exact memRead_memWrite_self _ _ _
    · rw [env.layout.encodeIRP_length]
      omega

/-- **C3** counterexample: with input `[7]` (length 1) and output length 4,
the system buffer is allocated with size `4 = max(1, 4)`, not the input
length 1 the claim states. -/
theorem claim_ioctl_buffered_system_buffer_counterexample :
    (ioctlSetup (testEnv 0 0 1) ⟨0, [], []⟩ (fun _ => 0) 0 0 methodBuffered 0 4
      [7]).systemBufferSize = 4 ∧
    ¬((ioctlSetup (testEnv 0 0 1) ⟨0, [], []⟩ (fun _ => 0) 0 0 methodBuffered 0 4
      [7]).systemBufferSize = ([7] : List Nat).length) := by
  exact ⟨rfl, by decide⟩

end QilingUtils
